import Mathlib

/-!
# Verification of the recruiting_visualizer backend

A shallow embedding, in Lean 4, of the core logic of the
`recruiting_visualizer` repository (Python / FastAPI / SQLModel):

* `src/backend/services.py` — URL filter, experience/education flatteners,
  PDF text extractor, folder loader, disk-scan ingest;
* `src/backend/routes.py`   — get-candidate, update-candidate, search
  refinement;
* `src/backend/models.py`   — the `Candidate` record and the
  `CandidateUpdate` patch request.

Conventions of the embedding:

* Timestamps (`datetime.now(timezone.utc)`) are modelled as abstract
  `Nat` clock values; every state-changing operation receives the value
  `utc_now()` would return as an explicit `now : Nat` argument.
* Python `None` is `Option.none`; optional string fields are
  `Option String`.
* JSON values are the inductive `Json` type below; Python method calls
  such as `dict.get` that raise `AttributeError` on non-dict receivers
  are modelled in the `Except Unit` monad (`.error ()` = the Python code
  raises).
* The filesystem is passed in as explicit data: a folder is its name
  plus the state of each of its fixed-name files.
-/

namespace RecruitingVisualizer

/-! ## Python string primitives

Lean's built-in `String.trim` / `String.replace` / `String.splitOn` work
on byte positions and do not reduce inside the kernel, so the Python
string operations the code uses are modelled structurally over
`String.data` (the character list). Semantics follow CPython at ASCII
level. -/

/-- The characters `str.strip()` removes (ASCII whitespace). -/
def pyIsSpace (c : Char) : Bool :=
  c == ' ' || c == '\t' || c == '\n' || c == '\r' || c == '\x0b' || c == '\x0c'

def pyStripList (s : List Char) : List Char :=
  ((s.dropWhile pyIsSpace).reverse.dropWhile pyIsSpace).reverse

/-- Python `s.strip()`. -/
def pyStrip (s : String) : String :=
  ⟨pyStripList s.data⟩

/-- Python `sep.join(xs)`. -/
def pyJoin (sep : String) (xs : List String) : String :=
  ⟨List.intercalate sep.data (xs.map String.data)⟩

/-- Python `s.replace(c, r)` for a one-character pattern (the only form
the code uses: `folder.name.replace("-", " ")`). -/
def pyReplaceChar (c r : Char) (s : String) : String :=
  ⟨s.data.map (fun x => if x == c then r else x)⟩

/-- Python `s.split(c)` for a one-character separator (the only form the
code uses: `full_text.split("\n")`). -/
def splitOnChar (c : Char) (s : List Char) : List (List Char) :=
  s.foldr (fun x acc =>
    match acc with
    | [] => if x == c then [[], []] else [[x]]
    | cur :: rest => if x == c then [] :: (cur :: rest) else (x :: cur) :: rest) [[]]

/-- Python `pat in hay` for strings: `pat` occurs as a contiguous
substring. -/
def containsSub : List Char → List Char → Bool
  | hay, pat =>
    pat.isPrefixOf hay ||
      match hay with
      | [] => false
      | _ :: t => containsSub t pat

/-- Python `pat in hay` on `String`. -/
def strContains (hay pat : String) : Bool :=
  containsSub hay.data pat.data

/-! ## JSON values (`json.load` results) -/

/-- A parsed JSON document, as returned by Python's `json.load`. -/
inductive Json where
  | null : Json
  | bool (b : Bool) : Json
  | num  (n : Int) : Json
  | str  (s : String) : Json
  | arr  (elems : List Json) : Json
  | obj  (fields : List (String × Json)) : Json

/-- Python `d[k]` lookup on a JSON object's field list (first binding wins,
as in a Python dict, whose keys are unique). -/
def Json.lookup (fields : List (String × Json)) (k : String) : Option Json :=
  match fields with
  | [] => none
  | (k', v) :: rest => if k' = k then some v else Json.lookup rest k

/-- Python `x.get(k, d)`: succeeds only when the receiver is a dict
(`Json.obj`); on any other receiver Python raises `AttributeError`,
modelled as `.error ()`. -/
def Json.get (j : Json) (k : String) (d : Json) : Except Unit Json :=
  match j with
  | .obj fields =>
      match Json.lookup fields k with
      | some v => .ok v
      | none => .ok d
  | _ => .error ()

/-! ## `services.filter_urls` -/

/-- `services.filter_urls`: `[u for u in urls if "arxiv.org" not in u]`. -/
def filter_urls (urls : List String) : List String :=
  urls.filter (fun u => !strContains u "arxiv.org")

/-! ## `services.flatten_experience` / `services.flatten_education`

The flatteners consume lists of JSON objects; at the level the spec's
claims address them, a record is a mapping from the relevant field names
to optional string values (`none` = key absent). -/

/-- One experience record: the `title` / `work` entries of the dict
(`none` = key absent, so `exp.get(field, "")` yields `""`). -/
structure ExpRec where
  title : Option String := none
  work : Option String := none
  deriving Repr, DecidableEq

/-- One education record: the `degree` / `major` / `school` entries. -/
structure EduRec where
  degree : Option String := none
  major : Option String := none
  school : Option String := none
  deriving Repr, DecidableEq

/-- `services.flatten_experience`: for each record take
`title = exp.get("title", "")`, `work = exp.get("work", "")`, keep the
record iff `title or work` is truthy (some field non-empty), contribute
`f"{title} {work}".strip()`, and join contributions with `", "`. -/
def flatten_experience (experience : List ExpRec) : String :=
  let parts := experience.foldr
    (fun exp acc =>
      let title := exp.title.getD ""
      let work := exp.work.getD ""
      if title ≠ "" ∨ work ≠ "" then pyStrip (title ++ " " ++ work) :: acc else acc)
    []
  pyJoin ", " parts

/-- `services.flatten_education`: same shape with fields
`degree`, `major`, `school` and contribution
`f"{degree} {major} {school}".strip()`. -/
def flatten_education (education : List EduRec) : String :=
  let parts := education.foldr
    (fun edu acc =>
      let degree := edu.degree.getD ""
      let major := edu.major.getD ""
      let school := edu.school.getD ""
      if degree ≠ "" ∨ major ≠ "" ∨ school ≠ "" then
        pyStrip (degree ++ " " ++ major ++ " " ++ school) :: acc
      else acc)
    []
  pyJoin ", " parts

/-- The education flattener as §4.2 of the spec (and claim C4) words it:
a record with at least one non-empty relevant field contributes the
space-joined, trimmed concatenation of the record's *present* fields in
the order degree, major, school. (Second definition, following the
spec's words, kept for comparison with `flatten_education`, which is
translated from the code.) -/
def flatten_education_spec (education : List EduRec) : String :=
  let parts := education.foldr
    (fun edu acc =>
      let present := [edu.degree, edu.major, edu.school].filterMap id
      if edu.degree.getD "" ≠ "" ∨ edu.major.getD "" ≠ "" ∨ edu.school.getD "" ≠ "" then
        pyStrip (pyJoin " " present) :: acc
      else acc)
    []
  pyJoin ", " parts

/-! ## `services.extract_pdf_text`

The PyMuPDF (`fitz`) library is an external collaborator: the embedding
receives, as data, whether the library imported (`HAS_PYMUPDF`), whether
`cv.pdf` exists, and the outcome of the library interaction — either an
exception (`.error ()`, caught by the `except` block) or the list of
per-page `get_text()` results. Python's `str.strip` is modelled by
`String.trim` (ASCII whitespace). -/

def extract_pdf_text (hasPyMuPDF : Bool) (fileExists : Bool)
    (pages : Except Unit (List String)) : Option String :=
  if !hasPyMuPDF then none
  else if !fileExists then none
  else match pages with
    | .error _ => none
    | .ok pageTexts =>
      let text_parts := pageTexts.filter (fun t => !(t == ""))
      let full_text := pyJoin "\n\n" text_parts
      let lines := (splitOnChar '\n' full_text.data).map (fun l => pyStrip ⟨l⟩)
      let cleaned := pyJoin "\n" (lines.filter (fun l => !(l == "")))
      if cleaned ≠ "" then some cleaned else none

/-! ## `models.Candidate` and `models.CandidateUpdate`

`display_urls` / `experience` / `education` are persisted as JSON-dumped
strings; the embedding keeps the structural value that is dumped (the
dump is injective, so nothing is lost). `datetime` fields are abstract
`Nat` clock values. -/

structure Candidate where
  id : Option Nat := none
  folder_name : String
  full_name : String
  title : Option String := none
  primary_email : Option String := none
  linkedin_url : Option String := none
  display_urls : List String := []
  experience : Json := .arr []
  education : Json := .arr []
  experience_text : Option String := none
  education_text : Option String := none
  cv_text : Option String := none
  starred : Bool := false
  notes : Option String := none
  viewed : Bool := false
  viewed_at : Option Nat := none
  created_at : Nat
  updated_at : Nat

structure CandidateUpdate where
  starred : Option Bool := none
  notes : Option String := none
  viewed : Option Bool := none

/-! ## `routes.get_candidate` / `routes.update_candidate`

Both handlers first look the candidate up by id (404 when absent — the
not-found branch has no effect on any record, so the state transition is
modelled on the found record). `utc_now()` is passed in as `now`. -/

/-- `routes.get_candidate`, the state change on the fetched record:
`if not candidate.viewed:` set `viewed`, `viewed_at`, `updated_at`. -/
def get_candidate (now : Nat) (c : Candidate) : Candidate :=
  if !c.viewed then
    { c with viewed := true, viewed_at := some now, updated_at := now }
  else c

/-- `routes.update_candidate`: apply each present patch field; setting
`viewed` stamps `viewed_at` only when `update.viewed` is truthy and
`candidate.viewed_at` is falsy (`None`); always stamp `updated_at`. -/
def update_candidate (now : Nat) (u : CandidateUpdate) (c : Candidate) : Candidate :=
  let c := match u.starred with
    | some b => { c with starred := b }
    | none => c
  let c := match u.notes with
    | some s => { c with notes := some s }
    | none => c
  let c := match u.viewed with
    | some v =>
      let c := { c with viewed := v }
      if v = true ∧ c.viewed_at = none then { c with viewed_at := some now } else c
    | none => c
  { c with updated_at := now }

/-- One API operation on a single candidate record, tagged with the
clock value `utc_now()` returns while it runs. -/
inductive Op where
  | get (now : Nat)
  | update (now : Nat) (u : CandidateUpdate)

def Op.apply (c : Candidate) : Op → Candidate
  | .get now => get_candidate now c
  | .update now u => update_candidate now u c

/-- Run a sequence of get-candidate / update-candidate operations. -/
def runOps (c : Candidate) (ops : List Op) : Candidate :=
  ops.foldl Op.apply c

/-! ## `routes.search_candidates` — whole-word refinement

`re.compile(r'\b' + re.escape(q) + r'\b', re.IGNORECASE)`: because the
query is escaped it is matched literally; the pattern matches at
position `i` iff there is a word boundary at `i`, the query matches
case-insensitively at `i`, and there is a word boundary after it. Word
characters are modelled at ASCII level (`[A-Za-z0-9_]`), as is
case-folding. -/

/-- Regex `\w` at ASCII level. -/
def isWordChar (c : Char) : Bool :=
  c.isAlphanum || c == '_'

/-- Whether position `i` of `s` holds a word character (out of range:
no). -/
def wordAt (s : List Char) (i : Nat) : Bool :=
  match s[i]? with
  | some c => isWordChar c
  | none => false

/-- Regex `\b` at position `i` (a gap position, `0 ≤ i ≤ s.length`):
exactly one of the two adjacent positions holds a word character. -/
def boundaryAt (s : List Char) (i : Nat) : Bool :=
  let prev := match i with
    | 0 => false
    | j + 1 => wordAt s j
  prev != wordAt s i

/-- The pattern `\b<literal q>\b` (case-insensitive) matches `s` at
position `i`. -/
def matchAt (q s : List Char) (i : Nat) : Bool :=
  decide (i + q.length ≤ s.length) &&
  ((s.drop i).take q.length).map Char.toLower == q.map Char.toLower &&
  boundaryAt s i && boundaryAt s (i + q.length)

/-- `word_pattern.search(field)` is truthy: the pattern matches at some
position of the field. -/
def wholeWordSearch (q s : String) : Bool :=
  (List.range (s.data.length + 1)).any (fun i => matchAt q.data s.data i)

/-- The field list of `matches_whole_word`, in source order:
`[c.full_name, c.experience_text, c.education_text, c.title, c.cv_text]`
(`full_name` is non-optional in the model). -/
def searchFields (c : Candidate) : List (Option String) :=
  [some c.full_name, c.experience_text, c.education_text, c.title, c.cv_text]

/-- `matches_whole_word`: `any(field and word_pattern.search(field) for
field in fields)` — a `None` or empty field is falsy and never
searched. -/
def matches_whole_word (q : String) (c : Candidate) : Bool :=
  (searchFields c).any (fun f =>
    match f with
    | none => false
    | some s => !(s == "") && wholeWordSearch q s)

/-- The in-process refinement step of `routes.search_candidates`:
`[c for c in candidates if matches_whole_word(c)]`. -/
def search_refine (q : String) (cs : List Candidate) : List Candidate :=
  cs.filter (matches_whole_word q)

/-! ## `services.load_json` and the filesystem model -/

/-- What is on disk at one of the fixed JSON filenames. -/
inductive FileState where
  | missing : FileState
  | malformed : FileState
  | parsed (j : Json) : FileState

/-- `services.load_json`: `FileNotFoundError` and `JSONDecodeError` both
yield `{}`; otherwise the parsed document (any JSON value — `json.load`
does not require a top-level object). -/
def load_json : FileState → Json
  | .missing => .obj []
  | .malformed => .obj []
  | .parsed j => j

/-- One applicant folder: its directory name, the states of
`basic_info.json` and `personal_info.json`, and the `cv.pdf` data
consumed by `extract_pdf_text` (existence plus the per-page text the
PDF library would yield, or an extraction error). -/
structure Folder where
  name : String
  basic_info : FileState := .missing
  personal_info : FileState := .missing
  cvExists : Bool := false
  cvPages : Except Unit (List String) := .ok []

/-! ## `services.load_candidate_from_folder`

The Python code is typed `-> Optional[Candidate]` but every non-raising
path returns a `Candidate`; `.ok` is that value and `.error ()` is an
uncaught exception. The typed embedding confines profile fields to
string values: where Python would silently store or stringify a
non-string JSON value (SQLModel runs no validation on table models),
the model reports a load failure instead; claim C5's analysis assumes
well-shaped documents on such fields, so those paths are not exercised
there. Non-dict receivers of `.get` are genuine Python
`AttributeError`s and are modelled faithfully by `Json.get`. -/

/-- `data.get(k)` restricted to string-or-absent values: absent and
JSON-null both become `none` (Python returns `None` for both); a
present non-string value is a model-level load failure (see above). -/
def getStrOpt (data : Json) (k : String) : Except Unit (Option String) := do
  match ← data.get k .null with
  | .null => pure none
  | .str s => pure (some s)
  | _ => .error ()

/-- A JSON array of strings, as `list[str]`; a non-string element makes
`"arxiv.org" not in u` raise `TypeError` in `filter_urls`. -/
def strListOfJson : List Json → Except Unit (List String)
  | [] => .ok []
  | .str s :: rest => do pure (s :: (← strListOfJson rest))
  | _ :: _ => .error ()

/-- The stored `fullName` value flows into the `str`-typed `full_name`
column; the typed embedding requires it to be a string (see the section
comment). -/
def asStrExcept : Json → Except Unit String
  | .str s => .ok s
  | _ => .error ()

/-- The `displayUrls` value must be a list of strings. -/
def asStrListExcept : Json → Except Unit (List String)
  | .arr xs => strListOfJson xs
  | _ => .error ()

/-- String-or-absent field of a record dict (see `getStrOpt`). -/
def fieldStrOpt (kvs : List (String × Json)) (k : String) : Except Unit (Option String) :=
  match Json.lookup kvs k with
  | none => .ok none
  | some (.str s) => .ok (some s)
  | some _ => .error ()

/-- An experience entry must be a dict (`exp.get` raises otherwise). -/
def expRecOfJson : Json → Except Unit ExpRec
  | .obj kvs => do
    let t ← fieldStrOpt kvs "title"
    let w ← fieldStrOpt kvs "work"
    pure ⟨t, w⟩
  | _ => .error ()

def expRecsOfList : List Json → Except Unit (List ExpRec)
  | [] => .ok []
  | x :: rest => do
    let r ← expRecOfJson x
    let rs ← expRecsOfList rest
    pure (r :: rs)

/-- The `experience` value must be a list (`for exp in experience`
fails or misbehaves on any non-list except the vacuous `{}` / `""`,
which the model also reports as failures). -/
def expRecsOfJson : Json → Except Unit (List ExpRec)
  | .arr xs => expRecsOfList xs
  | _ => .error ()

/-- An education entry must be a dict (`edu.get` raises otherwise). -/
def eduRecOfJson : Json → Except Unit EduRec
  | .obj kvs => do
    let d ← fieldStrOpt kvs "degree"
    let m ← fieldStrOpt kvs "major"
    let s ← fieldStrOpt kvs "school"
    pure ⟨d, m, s⟩
  | _ => .error ()

def eduRecsOfList : List Json → Except Unit (List EduRec)
  | [] => .ok []
  | x :: rest => do
    let r ← eduRecOfJson x
    let rs ← eduRecsOfList rest
    pure (r :: rs)

/-- The `education` value must be a list (as for `expRecsOfJson`). -/
def eduRecsOfJson : Json → Except Unit (List EduRec)
  | .arr xs => eduRecsOfList xs
  | _ => .error ()

/-- `services.load_candidate_from_folder`. `hasPyMuPDF` is the global
`HAS_PYMUPDF`; `now` is the clock value backing the record's
`created_at` / `updated_at` default factories. -/
def load_candidate_from_folder (hasPyMuPDF : Bool) (now : Nat)
    (folder : Folder) : Except Unit Candidate := do
  let basic_info := load_json folder.basic_info
  let personal_info := load_json folder.personal_info
  let data ← basic_info.get "data" (.obj [])
  let personal_data ← personal_info.get "data" (.obj [])
  let fullNameJ ← data.get "fullName" (.str (pyReplaceChar '-' ' ' folder.name))
  let full_name ← asStrExcept fullNameJ
  let title ← getStrOpt data "title"
  let primary_email ← getStrOpt personal_data "primaryEmail"
  let linkedin_url ← getStrOpt personal_data "linkedinUrl"
  let displayUrlsJ ← personal_data.get "displayUrls" (.arr [])
  let display_urls ← asStrListExcept displayUrlsJ
  let filtered_urls := filter_urls display_urls
  let experience ← data.get "experience" (.arr [])
  let education ← data.get "education" (.arr [])
  let expRecs ← expRecsOfJson experience
  let eduRecs ← eduRecsOfJson education
  pure { folder_name := folder.name
         full_name := full_name
         title := title
         primary_email := primary_email
         linkedin_url := linkedin_url
         display_urls := filtered_urls
         experience := experience
         education := education
         experience_text := some (flatten_experience expRecs)
         education_text := some (flatten_education eduRecs)
         cv_text := extract_pdf_text hasPyMuPDF folder.cvExists folder.cvPages
         created_at := now
         updated_at := now }

/-! ## `services.load_candidates_from_disk` -/

/-- One entry of `path.iterdir()`: a subdirectory (an applicant folder)
or any other entry (skipped by the `is_dir` check). -/
inductive DirEntry where
  | dir (f : Folder) : DirEntry
  | file (name : String) : DirEntry

def DirEntry.name : DirEntry → String
  | .dir f => f.name
  | .file n => n

def DirEntry.isDir : DirEntry → Bool
  | .dir _ => true
  | .file _ => false

/-- The store's `folder_name` column. -/
def folderNames (store : List Candidate) : List String :=
  store.map Candidate.folder_name

/-- `select(Candidate).where(Candidate.folder_name == name)).first()`:
the session's autoflush makes rows staged earlier in the same scan
visible, so the lookup runs over the current store list. -/
def findExisting (store : List Candidate) (name : String) : Option Candidate :=
  store.find? (fun c => c.folder_name == name)

/-- The scan loop body of `load_candidates_from_disk`: skip non-dirs,
count an existing `folder_name` as skipped, otherwise load the folder
(`if candidate:` is always truthy when the loader returns) and stage
the row. An uncaught loader exception aborts the whole scan. -/
def scanFolders (hasPyMuPDF : Bool) (now : Nat) :
    List DirEntry → List Candidate → Nat → Nat →
    Except Unit (List Candidate × Nat × Nat)
  | [], store, loaded, skipped => .ok (store, loaded, skipped)
  | e :: rest, store, loaded, skipped =>
    match e with
    | .file _ => scanFolders hasPyMuPDF now rest store loaded skipped
    | .dir f =>
      if (findExisting store f.name).isSome then
        scanFolders hasPyMuPDF now rest store loaded (skipped + 1)
      else
        match load_candidate_from_folder hasPyMuPDF now f with
        | .error err => .error err
        | .ok c => scanFolders hasPyMuPDF now rest (store ++ [c]) (loaded + 1) skipped

/-- `sorted(path.iterdir())`: lexicographic by entry name. -/
def sortEntries (entries : List DirEntry) : List DirEntry :=
  List.insertionSort (fun a b => a.name ≤ b.name) entries

/-- `services.load_candidates_from_disk`. `rootExists` is
`path.exists()`; on a missing root the function warns and returns with
no counts (`none`). Otherwise it returns the committed store plus the
`(loaded_count, skipped_count)` pair it reports. -/
def load_candidates_from_disk (hasPyMuPDF : Bool) (now : Nat)
    (rootExists : Bool) (store : List Candidate) (entries : List DirEntry) :
    Except Unit (List Candidate × Option (Nat × Nat)) :=
  if !rootExists then .ok (store, none)
  else
    match scanFolders hasPyMuPDF now (sortEntries entries) store 0 0 with
    | .error err => .error err
    | .ok (store', l, k) => .ok (store', some (l, k))

/-! ## Statement-level vocabulary

Definitions used by the theorem statements: spec-side wordings of the
claims, well-formedness predicates, and concrete fixture values. -/

/-- The claim-level reading of a whole-word match (§4.6, glossary): the
whole query occurs in `s` case-insensitively with a word boundary at
each end. -/
def wholeWordProp (q s : String) : Prop :=
  ∃ i, i + q.data.length ≤ s.data.length ∧
    ((s.data.drop i).take q.data.length).map Char.toLower = q.data.map Char.toLower ∧
    boundaryAt s.data i = true ∧ boundaryAt s.data (i + q.data.length) = true

/-- The normalization step of `extract_pdf_text` (§4.3): join pages
with a blank-line separator, trim each line, drop empty lines, preserve
line order. -/
def normalizePages (pageTexts : List String) : String :=
  let text_parts := pageTexts.filter (fun t => !(t == ""))
  let full_text := pyJoin "\n\n" text_parts
  let lines := (splitOnChar '\n' full_text.data).map (fun l => pyStrip ⟨l⟩)
  pyJoin "\n" (lines.filter (fun l => !(l == "")))

/-- The experience flattener as §4.2 of the spec (and claim C4) words
it: a record with at least one non-empty relevant field contributes the
space-joined, trimmed concatenation of its *present* fields in the
order title, work. -/
def flatten_experience_spec (experience : List ExpRec) : String :=
  let parts := experience.foldr
    (fun exp acc =>
      let present := [exp.title, exp.work].filterMap id
      if exp.title.getD "" ≠ "" ∨ exp.work.getD "" ≠ "" then
        pyStrip (pyJoin " " present) :: acc
      else acc)
    []
  pyJoin ", " parts

/-- The education flattener's actual per-record rule, stated
filter/map-style: every record with at least one non-empty relevant
field contributes the end-trimmed join of *all three* fields in order
degree, major, school with single spaces (absent fields contribute the
empty string, so an absent middle field leaves two adjacent spaces). -/
def flatten_education_allfields (education : List EduRec) : String :=
  pyJoin ", " ((education.filter (fun r =>
      decide (r.degree.getD "" ≠ "" ∨ r.major.getD "" ≠ "" ∨ r.school.getD "" ≠ ""))).map
    (fun r => pyStrip (r.degree.getD "" ++ " " ++ r.major.getD "" ++ " " ++ r.school.getD "")))

/-- The applicant folders among a directory's entries, in entry order. -/
def dirFolders (entries : List DirEntry) : List Folder :=
  entries.filterMap (fun e => match e with | .dir f => some f | .file _ => none)

/-- The JSON value is a string. -/
def isStrJ : Json → Bool
  | .str _ => true
  | _ => false

/-- The JSON value is a string or `null` (both accepted where Python
stores the value into an optional string field). -/
def strOrNullJ : Json → Bool
  | .str _ => true
  | .null => true
  | _ => false

/-- A dict field is absent or its value satisfies `p`. -/
def goodField (kvs : List (String × Json)) (k : String) (p : Json → Bool) : Bool :=
  match Json.lookup kvs k with
  | none => true
  | some v => p v

/-- A well-shaped experience list: a JSON array of objects whose
`title` / `work` fields, when present, are strings. -/
def goodExpList : Json → Bool
  | .arr xs => xs.all (fun x =>
      match x with
      | .obj kvs => goodField kvs "title" isStrJ && goodField kvs "work" isStrJ
      | _ => false)
  | _ => false

/-- A well-shaped education list (fields `degree` / `major` /
`school`). -/
def goodEduList : Json → Bool
  | .arr xs => xs.all (fun x =>
      match x with
      | .obj kvs =>
        goodField kvs "degree" isStrJ && goodField kvs "major" isStrJ &&
          goodField kvs "school" isStrJ
      | _ => false)
  | _ => false

/-- A JSON array of strings. -/
def goodStrList : Json → Bool
  | .arr xs => xs.all isStrJ
  | _ => false

/-- A well-shaped `basic_info` `data` object. -/
def goodData : Json → Bool
  | .obj kvs =>
      goodField kvs "fullName" isStrJ && goodField kvs "title" strOrNullJ &&
        goodField kvs "experience" goodExpList && goodField kvs "education" goodEduList
  | _ => false

/-- A well-shaped `personal_info` `data` object. -/
def goodPersonal : Json → Bool
  | .obj kvs =>
      goodField kvs "primaryEmail" strOrNullJ && goodField kvs "linkedinUrl" strOrNullJ &&
        goodField kvs "displayUrls" goodStrList
  | _ => false

/-- A well-shaped document: missing, malformed, or parsed to an object
whose `data` member (when present) satisfies `p`. -/
def goodDoc (p : Json → Bool) (fs : FileState) : Bool :=
  match load_json fs with
  | .obj kvs => goodField kvs "data" p
  | _ => false

/-- A folder whose two JSON documents are each missing, malformed, or
well-shaped. -/
def goodFolder (f : Folder) : Bool :=
  goodDoc goodData f.basic_info && goodDoc goodPersonal f.personal_info

/-- The basic-info document carries no full name: its effective `data`
object has no `fullName` key. -/
def noFullName (fs : FileState) : Bool :=
  match load_json fs with
  | .obj kvs =>
    match Json.lookup kvs "data" with
    | none => true
    | some (.obj kvs2) => (Json.lookup kvs2 "fullName").isNone
    | some _ => false
  | _ => false

/-- A minimal stored candidate (fixture for concrete instances). -/
def sampleCandidate : Candidate :=
  { folder_name := "John-Doe", full_name := "John Doe", created_at := 0, updated_at := 0 }

/-- A stored candidate mirroring the repository's `Bob Jones` test
fixture (fixture for concrete instances). -/
def bobCandidate : Candidate :=
  { folder_name := "Bob-Jones"
    full_name := "Bob Jones"
    title := some "Data Scientist at Meta"
    experience_text := some "Data Scientist Meta"
    education_text := some "MS Statistics Berkeley"
    created_at := 0
    updated_at := 0 }

/-! ## Helper lemmas -/

theorem except_bind_ok {α β : Type} {x : Except Unit α} {f : α → Except Unit β} {b : β} :
    x >>= f = .ok b ↔ ∃ a, x = .ok a ∧ f a = .ok b := by
  cases x <;> simp [Bind.bind, Except.bind]

theorem except_pure_ok {α : Type} {a b : α} :
    (pure a : Except Unit α) = .ok b ↔ a = b := by
  simp [pure, Except.pure]

theorem containsSub_nil (pat : List Char) : containsSub [] pat = pat.isPrefixOf [] := by
  show (pat.isPrefixOf [] || false) = pat.isPrefixOf []
  simp

theorem containsSub_cons (a : Char) (t pat : List Char) :
    containsSub (a :: t) pat = (pat.isPrefixOf (a :: t) || containsSub t pat) := rfl

/-- `containsSub` decides substring occurrence: it agrees with list
infix. -/
theorem containsSub_iff (hay pat : List Char) : containsSub hay pat = true ↔ pat <:+: hay := by
  induction hay with
  | nil =>
    rw [containsSub_nil, List.isPrefixOf_iff_prefix]
    simp [List.prefix_nil, List.infix_nil]
  | cons a t ih =>
    rw [containsSub_cons, List.infix_cons_iff]
    simp [List.isPrefixOf_iff_prefix, ih]

/-! ## Claim theorems -/

/-- C8: for every root path that does not exist, disk-scan ingest
performs no work and signals no error: the store is returned unchanged,
nothing is inserted, and no counts are produced. -/
theorem missing_root_is_noop (hl : Bool) (now : Nat) (store : List Candidate)
    (entries : List DirEntry) :
    load_candidates_from_disk hl now false store entries = .ok (store, none) := rfl

/-- C9: the first get-candidate call on an unviewed candidate sets
`viewed` to true and stamps `viewed_at = some now` (non-null); a
get-candidate call on a candidate whose `viewed` is already true
changes nothing, so a subsequent call leaves `viewed_at` unchanged. -/
theorem get_candidate_view_stamp (now later : Nat) (c : Candidate) :
    (c.viewed = false →
      (get_candidate now c).viewed = true ∧
      (get_candidate now c).viewed_at = some now ∧
      (get_candidate later (get_candidate now c)).viewed_at = some now) ∧
    (c.viewed = true → get_candidate now c = c) := by
  constructor
  · intro h
    simp [get_candidate, h]
  · intro h
    simp [get_candidate, h]

theorem get_candidate_view_stamp_witness :
    sampleCandidate.viewed = false ∧
    (get_candidate 5 sampleCandidate).viewed = true ∧
    (get_candidate 5 sampleCandidate).viewed_at = some 5 ∧
    (get_candidate 9 (get_candidate 5 sampleCandidate)).viewed_at = some 5 := by
  have h := (get_candidate_view_stamp 5 9 sampleCandidate).1 (by decide)
  exact ⟨by decide, h.1, h.2.1, h.2.2⟩

/-- C10: update-candidate can change only the review fields (`starred`,
`notes`, `viewed`) and the timestamps (`viewed_at`, `updated_at`); every
other Candidate field is unchanged by the operation, for every patch
request. -/
theorem update_candidate_frame (now : Nat) (u : CandidateUpdate) (c : Candidate) :
    (update_candidate now u c).id = c.id ∧
    (update_candidate now u c).folder_name = c.folder_name ∧
    (update_candidate now u c).full_name = c.full_name ∧
    (update_candidate now u c).title = c.title ∧
    (update_candidate now u c).primary_email = c.primary_email ∧
    (update_candidate now u c).linkedin_url = c.linkedin_url ∧
    (update_candidate now u c).display_urls = c.display_urls ∧
    (update_candidate now u c).experience = c.experience ∧
    (update_candidate now u c).education = c.education ∧
    (update_candidate now u c).experience_text = c.experience_text ∧
    (update_candidate now u c).education_text = c.education_text ∧
    (update_candidate now u c).cv_text = c.cv_text ∧
    (update_candidate now u c).created_at = c.created_at := by
  obtain ⟨s, n, v⟩ := u
  cases s <;> cases n <;> cases v <;>
    simp [update_candidate] <;> split <;> simp

/-- C1 counterexample: `viewed_at` is not immutable once set. Starting
from an unviewed candidate, patching `viewed := true` at time 1 stamps
`viewed_at = some 1`; after patching `viewed := false` at time 2, a
get-candidate at time 3 re-stamps `viewed_at = some 3`, changing it
after its first setting — contradicting "set exactly once and never
changed afterwards, even if viewed is toggled false and then true
again". -/
theorem viewed_at_restamped_counterexample :
    (runOps sampleCandidate [Op.update 1 ⟨none, none, some true⟩]).viewed_at = some 1 ∧
    (runOps sampleCandidate
      [Op.update 1 ⟨none, none, some true⟩, Op.update 2 ⟨none, none, some false⟩,
        Op.get 3]).viewed_at = some 3 := by
  decide

/-- C1 amended: across every sequence of get-candidate /
update-candidate operations, `viewed_at` is never cleared once set, and
the update (patch) path never overwrites an existing `viewed_at`; but
get-candidate re-stamps `viewed_at` whenever it runs on a candidate
whose `viewed` is false — so `viewed_at` is set at the first transition
to viewed and can change again only through a get-candidate after
`viewed` was toggled false. -/
theorem viewed_at_monotone :
    (∀ (c : Candidate) (ops : List Op),
      c.viewed_at ≠ none → (runOps c ops).viewed_at ≠ none) ∧
    (∀ (c : Candidate) (now : Nat) (u : CandidateUpdate) (t : Nat),
      c.viewed_at = some t → (update_candidate now u c).viewed_at = some t) ∧
    (∀ (c : Candidate) (now t : Nat),
      c.viewed_at = some t →
        (get_candidate now c).viewed_at = if c.viewed then some t else some now) := by
  have hupd : ∀ (c : Candidate) (now : Nat) (u : CandidateUpdate) (t : Nat),
      c.viewed_at = some t → (update_candidate now u c).viewed_at = some t := by
    intro c now u t ht
    obtain ⟨s, n, v⟩ := u
    cases s <;> cases n <;> cases v <;> simp [update_candidate, ht]
  have hget : ∀ (c : Candidate) (now t : Nat),
      c.viewed_at = some t →
        (get_candidate now c).viewed_at = if c.viewed then some t else some now := by
    intro c now t ht
    cases h : c.viewed <;> simp [get_candidate, h, ht]
  refine ⟨?_, hupd, hget⟩
  intro c ops
  induction ops generalizing c with
  | nil => exact fun h => h
  | cons op rest ih =>
    intro h
    apply ih
    obtain ⟨t, ht⟩ := Option.ne_none_iff_exists'.mp h
    cases op with
    | get now =>
      rw [Op.apply, hget c now t ht]
      split <;> simp
    | update now u =>
      rw [Op.apply, hupd c now u t ht]
      simp

theorem viewed_at_monotone_witness :
    sampleCandidate.viewed_at = none ∧
    (update_candidate 4 ⟨some true, none, none⟩
      (get_candidate 2 sampleCandidate)).viewed_at = some 2 ∧
    (runOps (get_candidate 2 sampleCandidate) [Op.update 4 ⟨some true, none, none⟩,
      Op.get 6]).viewed_at ≠ none := by
  refine ⟨by decide, ?_, ?_⟩
  · exact viewed_at_monotone.2.1 (get_candidate 2 sampleCandidate) 4 ⟨some true, none, none⟩ 2
      (by decide)
  · exact viewed_at_monotone.1 (get_candidate 2 sampleCandidate)
      [Op.update 4 ⟨some true, none, none⟩, Op.get 6] (by decide)

theorem extract_eq_normalize (ps : List String) :
    extract_pdf_text true true (.ok ps) =
      if normalizePages ps = "" then none else some (normalizePages ps) := by
  simp only [extract_pdf_text, normalizePages, Bool.not_true, Bool.false_eq_true, if_false]
  split
  · rfl
  · rename_i h
    rw [if_pos (not_not.mp h)]

/-- C6: the PDF text extractor never propagates a failure — it returns
`none` when the extraction capability is unavailable, when the target
file does not exist, and when extraction raises; it never returns an
empty string, and when the extracted text is empty after normalization
(each line trimmed, empty lines dropped, line order preserved) it
returns `none` rather than `some ""`; otherwise it returns the
normalized text. -/
theorem extract_pdf_text_contract :
    (∀ (fe : Bool) (p : Except Unit (List String)), extract_pdf_text false fe p = none) ∧
    (∀ (hl : Bool) (p : Except Unit (List String)), extract_pdf_text hl false p = none) ∧
    (∀ (hl fe : Bool) (e : Unit), extract_pdf_text hl fe (.error e) = none) ∧
    (∀ (hl fe : Bool) (p : Except Unit (List String)) (s : String),
      extract_pdf_text hl fe p = some s → s ≠ "") ∧
    (∀ ps : List String, normalizePages ps = "" → extract_pdf_text true true (.ok ps) = none) ∧
    (∀ ps : List String, normalizePages ps ≠ "" →
      extract_pdf_text true true (.ok ps) = some (normalizePages ps)) := by
  refine ⟨?_, ?_, ?_, ?_, ?_, ?_⟩
  · intro fe p; rfl
  · intro hl p; cases hl <;> rfl
  · intro hl fe e; cases hl <;> cases fe <;> rfl
  · intro hl fe p s h
    cases hl with
    | false => simp [extract_pdf_text] at h
    | true =>
      cases fe with
      | false => simp [extract_pdf_text] at h
      | true =>
        cases p with
        | error e => simp [extract_pdf_text] at h
        | ok ps =>
          rw [extract_eq_normalize] at h
          split at h
          · exact absurd h (by simp)
          · rename_i hne
            rw [Option.some_inj] at h
            exact h ▸ hne
  · intro ps h
    rw [extract_eq_normalize, if_pos h]
  · intro ps h
    rw [extract_eq_normalize, if_neg h]

theorem extract_pdf_text_contract_witness :
    extract_pdf_text true true (.ok ["  \n ", ""]) = none ∧
    extract_pdf_text true true (.ok ["a b \n c", "d"]) = some "a b\nc\nd" ∧
    ("a b\nc\nd" : String) ≠ "" := by
  refine ⟨?_, ?_, by decide⟩
  · exact extract_pdf_text_contract.2.2.2.2.1 ["  \n ", ""] (by decide)
  · have h := extract_pdf_text_contract.2.2.2.2.2 ["a b \n c", "d"] (by decide)
    rw [h]
    decide

theorem pyJoin_single (s a : String) : pyJoin s [a] = a := by
  apply String.ext
  simp [pyJoin, List.intercalate]

theorem pyJoin_pair (a b : String) : pyJoin " " [a, b] = a ++ " " ++ b := by
  apply String.ext
  simp [pyJoin, List.intercalate, List.intersperse, String.data_append]

theorem pyStripList_cons_space (l : List Char) : pyStripList (' ' :: l) = pyStripList l := by
  simp [pyStripList, List.dropWhile_cons, pyIsSpace]

theorem pyStripList_append_space (l : List Char) : pyStripList (l ++ [' ']) = pyStripList l := by
  unfold pyStripList
  rw [List.dropWhile_append]
  split
  · rename_i h
    rw [List.isEmpty_iff] at h
    rw [h]
    decide
  · rw [List.reverse_append]
    simp [List.dropWhile_cons, pyIsSpace]

/-- For a two-field record the trimmed all-fields join agrees with the
trimmed join of the present fields. -/
theorem expRecord_text_eq (t w : Option String) :
    pyStrip (t.getD "" ++ " " ++ w.getD "") = pyStrip (pyJoin " " ([t, w].filterMap id)) := by
  cases t with
  | none =>
    cases w with
    | none => decide
    | some w =>
      simp only [Option.getD_none, Option.getD_some, List.filterMap, id, pyJoin_single]
      apply String.ext
      show pyStripList (("" ++ " " ++ w).data) = pyStripList w.data
      rw [String.data_append, String.data_append]
      show pyStripList (' ' :: w.data) = pyStripList w.data
      exact pyStripList_cons_space w.data
  | some t =>
    cases w with
    | none =>
      simp only [Option.getD_none, Option.getD_some, List.filterMap, id, pyJoin_single]
      apply String.ext
      show pyStripList ((t ++ " " ++ "").data) = pyStripList t.data
      rw [String.data_append, String.data_append]
      show pyStripList (t.data ++ [' '] ++ []) = pyStripList t.data
      rw [List.append_nil]
      exact pyStripList_append_space t.data
    | some w =>
      simp only [Option.getD_some, List.filterMap, id]
      rw [pyJoin_pair]

theorem exp_parts_eq (exps : List ExpRec) :
    exps.foldr (fun exp acc =>
      if exp.title.getD "" ≠ "" ∨ exp.work.getD "" ≠ "" then
        pyStrip (exp.title.getD "" ++ " " ++ exp.work.getD "") :: acc
      else acc) [] =
    exps.foldr (fun exp acc =>
      if exp.title.getD "" ≠ "" ∨ exp.work.getD "" ≠ "" then
        pyStrip (pyJoin " " ([exp.title, exp.work].filterMap id)) :: acc
      else acc) [] := by
  induction exps with
  | nil => rfl
  | cons r rs ih =>
    rw [List.foldr_cons, List.foldr_cons, ih]
    split
    · rw [expRecord_text_eq]
    · rfl

theorem edu_parts_eq (edus : List EduRec) :
    edus.foldr (fun edu acc =>
      if edu.degree.getD "" ≠ "" ∨ edu.major.getD "" ≠ "" ∨ edu.school.getD "" ≠ "" then
        pyStrip (edu.degree.getD "" ++ " " ++ edu.major.getD "" ++ " " ++ edu.school.getD "") :: acc
      else acc) [] =
    (edus.filter (fun r =>
        decide (r.degree.getD "" ≠ "" ∨ r.major.getD "" ≠ "" ∨ r.school.getD "" ≠ ""))).map
      (fun r => pyStrip (r.degree.getD "" ++ " " ++ r.major.getD "" ++ " " ++ r.school.getD "")) := by
  induction edus with
  | nil => rfl
  | cons r rs ih =>
    rw [List.foldr_cons, ih, List.filter_cons]
    simp only [decide_eq_true_eq]
    split
    · rw [List.map_cons]
    · rfl

/-- C4 counterexample: on an education record whose middle field
(`major`) is absent, the flattener emits the join of all three fields —
`"BS  MIT"` with two spaces — while the claim's per-record formula
(space-joined present fields, trimmed) gives `"BS MIT"`. -/
theorem flatten_education_middle_gap_counterexample :
    flatten_education [{ degree := some "BS", school := some "MIT" }] = "BS  MIT" ∧
    flatten_education_spec [{ degree := some "BS", school := some "MIT" }] = "BS MIT" ∧
    flatten_education [{ degree := some "BS", school := some "MIT" }] ≠
      flatten_education_spec [{ degree := some "BS", school := some "MIT" }] := by
  decide

/-- C4 amended: both flatteners produce the comma-joined, input-order
concatenation of one per-record text for each record with at least one
non-empty relevant field. For experience the per-record text is as the
claim states (space-joined, trimmed present fields, order title then
work). For education the per-record text is the end-trimmed single-space
join of all three fields in order degree, major, school, with absent
fields contributing empty strings — which differs from the claim's
present-fields join exactly when a middle field is absent between
non-empty neighbours. -/
theorem flatten_characterization :
    (∀ exps : List ExpRec, flatten_experience exps = flatten_experience_spec exps) ∧
    (∀ edus : List EduRec, flatten_education edus = flatten_education_allfields edus) := by
  constructor
  · intro exps
    exact congrArg (pyJoin ", ") (exp_parts_eq exps)
  · intro edus
    exact congrArg (pyJoin ", ") (edu_parts_eq edus)

/-- The compiled-regex search agrees with the claim-level whole-word
matching proposition. -/
theorem wholeWordSearch_iff (q s : String) :
    wholeWordSearch q s = true ↔ wholeWordProp q s := by
  unfold wholeWordSearch wholeWordProp matchAt
  rw [List.any_eq_true]
  constructor
  · rintro ⟨i, _, hmatch⟩
    simp only [Bool.and_eq_true, decide_eq_true_eq, beq_iff_eq] at hmatch
    exact ⟨i, hmatch.1.1.1, hmatch.1.1.2, hmatch.1.2, hmatch.2⟩
  · rintro ⟨i, h1, h2, h3, h4⟩
    refine ⟨i, ?_, ?_⟩
    · rw [List.mem_range]
      omega
    · simp only [Bool.and_eq_true, decide_eq_true_eq, beq_iff_eq]
      exact ⟨⟨⟨h1, h2⟩, h3⟩, h4⟩

theorem matches_whole_word_iff (q : String) (hq : q ≠ "") (c : Candidate) :
    matches_whole_word q c = true ↔ ∃ s, some s ∈ searchFields c ∧ wholeWordProp q s := by
  unfold matches_whole_word
  rw [List.any_eq_true]
  constructor
  · rintro ⟨f, hf, hmatch⟩
    cases f with
    | none => exact absurd hmatch (by simp)
    | some s =>
      rw [Bool.and_eq_true] at hmatch
      exact ⟨s, hf, (wholeWordSearch_iff q s).mp hmatch.2⟩
  · rintro ⟨s, hs, hprop⟩
    refine ⟨some s, hs, ?_⟩
    have hsne : s ≠ "" := by
      intro hse
      subst hse
      obtain ⟨i, h1, -, -, -⟩ := hprop
      have hqd : q.data = [] := List.eq_nil_of_length_eq_zero (by
        have : ("" : String).data.length = 0 := rfl
        omega)
      exact hq (String.ext hqd)
    show (!(s == "") && wholeWordSearch q s) = true
    rw [Bool.and_eq_true, (wholeWordSearch_iff q s)]
    exact ⟨by simp [hsne], hprop⟩

/-- C2: for every non-empty query, the search refinement retains a
candidate iff the whole query matches as a whole word — word boundaries
at both ends of the whole query, case-insensitively — in at least one
of the searchable fields; absent (`none`) fields never match, and the
output is a sublist of the input (the input order is preserved). -/
theorem search_refine_spec (q : String) (hq : q ≠ "") (cs : List Candidate) :
    List.Sublist (search_refine q cs) cs ∧
    ∀ c, c ∈ search_refine q cs ↔
      (c ∈ cs ∧ ∃ s, some s ∈ searchFields c ∧ wholeWordProp q s) := by
  refine ⟨List.filter_sublist cs, ?_⟩
  intro c
  unfold search_refine
  rw [List.mem_filter, matches_whole_word_iff q hq c]

theorem search_refine_spec_witness :
    ("Meta" : String) ≠ "" ∧ bobCandidate ∈ search_refine "Meta" [bobCandidate] := by
  refine ⟨by decide, ?_⟩
  have h := (search_refine_spec "Meta" (by decide) [bobCandidate]).2 bobCandidate
  apply h.mpr
  exact ⟨List.mem_singleton_self _, "Data Scientist at Meta", by decide,
    18, by decide, by decide, by decide, by decide⟩

/-- Inversion on a successful folder load: the record's identity key is
the folder name, its URLs went through `filter_urls`, and its audit
timestamps carry the construction clock. -/
theorem load_ok_shape (hl : Bool) (now : Nat) (f : Folder) (c : Candidate)
    (h : load_candidate_from_folder hl now f = .ok c) :
    c.folder_name = f.name ∧ (∃ urls, c.display_urls = filter_urls urls) ∧
      c.created_at = now ∧ c.updated_at = now := by
  unfold load_candidate_from_folder at h
  simp only [except_bind_ok, except_pure_ok] at h
  obtain ⟨data, hdata, pd, hpd, fnj, hfnj, fn, hfn, t, ht, pe, hpe, lu, hlu, duj, hduj,
    du, hdu, ex, hex, ed, hed, xr, hxr, er, her, hc⟩ := h
  subst hc
  exact ⟨rfl, ⟨du, rfl⟩, rfl, rfl⟩

/-- C7: `filter_urls` removes exactly the entries containing the
excluded-domain substring `"arxiv.org"`; all other entries keep their
order (sublist) and multiplicity (no deduplication); it is total and
pure with empty input yielding empty output; and consequently the
`display_urls` of every successfully loaded candidate contain no entry
with the excluded-domain substring. -/
theorem filter_urls_spec :
    (∀ (urls : List String) (u : String),
      u ∈ filter_urls urls ↔ u ∈ urls ∧ ¬ ("arxiv.org".data <:+: u.data)) ∧
    (∀ urls : List String, List.Sublist (filter_urls urls) urls) ∧
    filter_urls [] = [] ∧
    (∀ (urls : List String) (u : String), ¬ ("arxiv.org".data <:+: u.data) →
      (filter_urls urls).count u = urls.count u) ∧
    (∀ (hl : Bool) (now : Nat) (f : Folder) (c : Candidate),
      load_candidate_from_folder hl now f = .ok c →
      ∀ u ∈ c.display_urls, ¬ ("arxiv.org".data <:+: u.data)) := by
  have hmem : ∀ (urls : List String) (u : String),
      u ∈ filter_urls urls ↔ u ∈ urls ∧ ¬ ("arxiv.org".data <:+: u.data) := by
    intro urls u
    unfold filter_urls strContains
    simp only [List.mem_filter, Bool.not_eq_true']
    apply and_congr_right
    intro _
    rw [← containsSub_iff, Bool.not_eq_true]
  refine ⟨hmem, fun urls => List.filter_sublist urls, rfl, ?_, ?_⟩
  · intro urls u hu
    apply List.count_filter
    simp only [strContains, Bool.not_eq_true']
    rw [← Bool.not_eq_true, containsSub_iff]
    exact hu
  · intro hl now f c hok u hu
    obtain ⟨-, ⟨urls, hurls⟩, -, -⟩ := load_ok_shape hl now f c hok
    rw [hurls] at hu
    exact ((hmem urls u).mp hu).2

theorem filter_urls_spec_witness :
    "https://github.com/x" ∈ filter_urls ["https://github.com/x", "https://arxiv.org/abs/1"] ∧
    "https://arxiv.org/abs/1" ∉ filter_urls ["https://github.com/x", "https://arxiv.org/abs/1"] ∧
    (filter_urls ["https://arxiv.org/abs/1", "https://x.org", "https://x.org"]).count
      "https://x.org" = 2 := by
  refine ⟨?_, ?_, ?_⟩
  · exact (filter_urls_spec.1 _ _).mpr ⟨by decide, by decide⟩
  · intro hmem
    exact absurd ((filter_urls_spec.1 _ _).mp hmem).2 (by decide)
  · rw [filter_urls_spec.2.2.2.1 _ _ (by decide)]
    decide

theorem json_get_obj (kvs : List (String × Json)) (k : String) (d : Json) :
    Json.get (.obj kvs) k d = .ok ((Json.lookup kvs k).getD d) := by
  unfold Json.get
  cases h : Json.lookup kvs k <;> simp [h]

theorem except_ok_bind {α β : Type} (a : α) (f : α → Except Unit β) :
    (Except.ok a : Except Unit α) >>= f = f a := rfl

theorem getStrOpt_ok_of_good (kvs : List (String × Json)) (k : String)
    (h : goodField kvs k strOrNullJ = true) : ∃ o, getStrOpt (.obj kvs) k = .ok o := by
  unfold goodField at h
  unfold getStrOpt
  rw [json_get_obj, except_ok_bind]
  cases hl : Json.lookup kvs k with
  | none => exact ⟨none, rfl⟩
  | some v =>
    rw [hl] at h
    cases v with
    | null => exact ⟨none, rfl⟩
    | str s => exact ⟨some s, rfl⟩
    | bool b => exact absurd h (by simp [strOrNullJ])
    | num n => exact absurd h (by simp [strOrNullJ])
    | arr xs => exact absurd h (by simp [strOrNullJ])
    | obj kvs2 => exact absurd h (by simp [strOrNullJ])

theorem fieldStrOpt_ok_of_good (kvs : List (String × Json)) (k : String)
    (h : goodField kvs k isStrJ = true) : ∃ o, fieldStrOpt kvs k = .ok o := by
  unfold goodField at h
  unfold fieldStrOpt
  cases hl : Json.lookup kvs k with
  | none => exact ⟨none, rfl⟩
  | some v =>
    rw [hl] at h
    cases v with
    | str s => exact ⟨some s, rfl⟩
    | null => exact absurd h (by simp [isStrJ])
    | bool b => exact absurd h (by simp [isStrJ])
    | num n => exact absurd h (by simp [isStrJ])
    | arr xs => exact absurd h (by simp [isStrJ])
    | obj kvs2 => exact absurd h (by simp [isStrJ])

theorem strListOfJson_ok (xs : List Json) (h : xs.all isStrJ = true) :
    ∃ l, strListOfJson xs = .ok l := by
  induction xs with
  | nil => exact ⟨[], rfl⟩
  | cons x rest ih =>
    rw [List.all_cons, Bool.and_eq_true] at h
    obtain ⟨l, hl⟩ := ih h.2
    cases x with
    | str s =>
      refine ⟨s :: l, ?_⟩
      show strListOfJson rest >>= (fun l => pure (s :: l)) = _
      rw [hl]
      rfl
    | null => exact absurd h.1 (by simp [isStrJ])
    | bool b => exact absurd h.1 (by simp [isStrJ])
    | num n => exact absurd h.1 (by simp [isStrJ])
    | arr ys => exact absurd h.1 (by simp [isStrJ])
    | obj kvs2 => exact absurd h.1 (by simp [isStrJ])

theorem expRecOfJson_ok (x : Json)
    (h : (match x with
      | Json.obj kvs => goodField kvs "title" isStrJ && goodField kvs "work" isStrJ
      | _ => false) = true) :
    ∃ r, expRecOfJson x = .ok r := by
  cases x with
  | obj kvs =>
    rw [Bool.and_eq_true] at h
    obtain ⟨t, ht⟩ := fieldStrOpt_ok_of_good kvs "title" h.1
    obtain ⟨w, hw⟩ := fieldStrOpt_ok_of_good kvs "work" h.2
    refine ⟨⟨t, w⟩, ?_⟩
    show (fieldStrOpt kvs "title" >>= fun a =>
      fieldStrOpt kvs "work" >>= fun b => pure (ExpRec.mk a b)) = Except.ok ⟨t, w⟩
    rw [ht, except_ok_bind, hw, except_ok_bind]
    rfl
  | null => exact Bool.noConfusion h
  | bool b => exact Bool.noConfusion h
  | num n => exact Bool.noConfusion h
  | str s => exact Bool.noConfusion h
  | arr ys => exact Bool.noConfusion h

theorem expRecsOfList_ok (xs : List Json)
    (h : xs.all (fun x =>
      match x with
      | Json.obj kvs => goodField kvs "title" isStrJ && goodField kvs "work" isStrJ
      | _ => false) = true) :
    ∃ rs, expRecsOfList xs = .ok rs := by
  induction xs with
  | nil => exact ⟨[], rfl⟩
  | cons x rest ih =>
    rw [List.all_cons, Bool.and_eq_true] at h
    obtain ⟨r, hr⟩ := expRecOfJson_ok x h.1
    obtain ⟨rs, hrs⟩ := ih h.2
    refine ⟨r :: rs, ?_⟩
    show expRecOfJson x >>= _ = _
    rw [hr, except_ok_bind, hrs, except_ok_bind]
    rfl

theorem expRecsOfJson_ok (j : Json) (h : goodExpList j = true) :
    ∃ rs, expRecsOfJson j = .ok rs := by
  cases j with
  | arr xs => exact expRecsOfList_ok xs h
  | null => exact Bool.noConfusion h
  | bool b => exact Bool.noConfusion h
  | num n => exact Bool.noConfusion h
  | str s => exact Bool.noConfusion h
  | obj kvs => exact Bool.noConfusion h

theorem eduRecOfJson_ok (x : Json)
    (h : (match x with
      | Json.obj kvs =>
        goodField kvs "degree" isStrJ && goodField kvs "major" isStrJ &&
          goodField kvs "school" isStrJ
      | _ => false) = true) :
    ∃ r, eduRecOfJson x = .ok r := by
  cases x with
  | obj kvs =>
    rw [Bool.and_eq_true, Bool.and_eq_true] at h
    obtain ⟨d, hd⟩ := fieldStrOpt_ok_of_good kvs "degree" h.1.1
    obtain ⟨m, hm⟩ := fieldStrOpt_ok_of_good kvs "major" h.1.2
    obtain ⟨s, hs⟩ := fieldStrOpt_ok_of_good kvs "school" h.2
    refine ⟨⟨d, m, s⟩, ?_⟩
    show (fieldStrOpt kvs "degree" >>= fun a =>
      fieldStrOpt kvs "major" >>= fun b =>
        fieldStrOpt kvs "school" >>= fun e => pure (EduRec.mk a b e)) = Except.ok ⟨d, m, s⟩
    rw [hd, except_ok_bind, hm, except_ok_bind, hs, except_ok_bind]
    rfl
  | null => exact Bool.noConfusion h
  | bool b => exact Bool.noConfusion h
  | num n => exact Bool.noConfusion h
  | str s => exact Bool.noConfusion h
  | arr ys => exact Bool.noConfusion h

theorem eduRecsOfList_ok (xs : List Json)
    (h : xs.all (fun x =>
      match x with
      | Json.obj kvs =>
        goodField kvs "degree" isStrJ && goodField kvs "major" isStrJ &&
          goodField kvs "school" isStrJ
      | _ => false) = true) :
    ∃ rs, eduRecsOfList xs = .ok rs := by
  induction xs with
  | nil => exact ⟨[], rfl⟩
  | cons x rest ih =>
    rw [List.all_cons, Bool.and_eq_true] at h
    obtain ⟨r, hr⟩ := eduRecOfJson_ok x h.1
    obtain ⟨rs, hrs⟩ := ih h.2
    refine ⟨r :: rs, ?_⟩
    show eduRecOfJson x >>= _ = _
    rw [hr, except_ok_bind, hrs, except_ok_bind]
    rfl

theorem eduRecsOfJson_ok (j : Json) (h : goodEduList j = true) :
    ∃ rs, eduRecsOfJson j = .ok rs := by
  cases j with
  | arr xs => exact eduRecsOfList_ok xs h
  | null => exact Bool.noConfusion h
  | bool b => exact Bool.noConfusion h
  | num n => exact Bool.noConfusion h
  | str s => exact Bool.noConfusion h
  | obj kvs => exact Bool.noConfusion h

theorem asStrListExcept_ok (j : Json) (h : goodStrList j = true) :
    ∃ l, asStrListExcept j = .ok l := by
  cases j with
  | arr xs => exact strListOfJson_ok xs h
  | null => exact Bool.noConfusion h
  | bool b => exact Bool.noConfusion h
  | num n => exact Bool.noConfusion h
  | str s => exact Bool.noConfusion h
  | obj kvs => exact Bool.noConfusion h

theorem goodDoc_elim (p : Json → Bool) (fs : FileState) (hEmpty : p (.obj []) = true)
    (h : goodDoc p fs = true) :
    ∃ kvs, load_json fs = .obj kvs ∧ p ((Json.lookup kvs "data").getD (.obj [])) = true := by
  unfold goodDoc at h
  cases hjb : load_json fs <;> rw [hjb] at h
  case obj kvs =>
    refine ⟨kvs, rfl, ?_⟩
    have h' : (match Json.lookup kvs "data" with
      | none => true
      | some v => p v) = true := h
    cases hlk : Json.lookup kvs "data" with
    | none => exact hEmpty
    | some v =>
      rw [hlk] at h'
      exact h'
  all_goals exact Bool.noConfusion h

theorem goodData_elim (d : Json) (h : goodData d = true) :
    ∃ kvs, d = .obj kvs ∧ goodField kvs "fullName" isStrJ = true ∧
      goodField kvs "title" strOrNullJ = true ∧
      goodField kvs "experience" goodExpList = true ∧
      goodField kvs "education" goodEduList = true := by
  cases d <;> try exact Bool.noConfusion h
  rename_i kvs
  simp only [goodData, Bool.and_eq_true] at h
  exact ⟨kvs, rfl, h.1.1.1, h.1.1.2, h.1.2, h.2⟩

theorem goodPersonal_elim (d : Json) (h : goodPersonal d = true) :
    ∃ kvs, d = .obj kvs ∧ goodField kvs "primaryEmail" strOrNullJ = true ∧
      goodField kvs "linkedinUrl" strOrNullJ = true ∧
      goodField kvs "displayUrls" goodStrList = true := by
  cases d <;> try exact Bool.noConfusion h
  rename_i kvs
  simp only [goodPersonal, Bool.and_eq_true] at h
  exact ⟨kvs, rfl, h.1.1, h.1.2, h.2⟩

theorem lookup_getD_str (kvs : List (String × Json)) (k : String) (dflt : String)
    (h : goodField kvs k isStrJ = true) :
    ∃ s, asStrExcept ((Json.lookup kvs k).getD (.str dflt)) = .ok s ∧
      (Json.lookup kvs k = none → s = dflt) := by
  unfold goodField at h
  cases hl : Json.lookup kvs k with
  | none => exact ⟨dflt, rfl, fun _ => rfl⟩
  | some v =>
    rw [hl] at h
    cases v <;> try exact Bool.noConfusion h
    rename_i s
    exact ⟨s, rfl, fun hc => Option.noConfusion hc⟩

theorem lookup_getD_strList (kvs : List (String × Json)) (k : String)
    (h : goodField kvs k goodStrList = true) :
    ∃ l, asStrListExcept ((Json.lookup kvs k).getD (.arr [])) = .ok l := by
  unfold goodField at h
  cases hl : Json.lookup kvs k with
  | none => exact ⟨[], rfl⟩
  | some v =>
    rw [hl] at h
    exact asStrListExcept_ok v h

theorem lookup_getD_expRecs (kvs : List (String × Json)) (k : String)
    (h : goodField kvs k goodExpList = true) :
    ∃ rs, expRecsOfJson ((Json.lookup kvs k).getD (.arr [])) = .ok rs := by
  unfold goodField at h
  cases hl : Json.lookup kvs k with
  | none => exact ⟨[], rfl⟩
  | some v =>
    rw [hl] at h
    exact expRecsOfJson_ok v h

theorem lookup_getD_eduRecs (kvs : List (String × Json)) (k : String)
    (h : goodField kvs k goodEduList = true) :
    ∃ rs, eduRecsOfJson ((Json.lookup kvs k).getD (.arr [])) = .ok rs := by
  unfold goodField at h
  cases hl : Json.lookup kvs k with
  | none => exact ⟨[], rfl⟩
  | some v =>
    rw [hl] at h
    exact eduRecsOfJson_ok v h

/-- C5 counterexample: the folder loader is not total. A folder whose
`basic_info.json` contains the *valid, parseable* JSON document `[]` (a
top-level array, so neither a missing file nor a parse error) makes
`basic_info.get("data", {})` raise `AttributeError` in Python — the
load fails instead of returning a Candidate. -/
theorem load_candidate_raises_counterexample :
    load_candidate_from_folder false 0
      { name := "Some-Candidate", basic_info := .parsed (.arr []) } = .error () := rfl

/-- C5 amended: the folder loader never raises and returns one
fully-populated Candidate for every folder whose two JSON documents are
each missing, malformed, or parse to a well-shaped object (top-level
object; `data` member, when present, an object with string `fullName`,
string-or-null `title`/`primaryEmail`/`linkedinUrl`, list-of-string
`displayUrls`, and experience/education lists of objects with string
fields) — in particular for a folder with no JSON files at all; and
when the basic-info document has no full name, `full_name` is the
folder name with `'-'` replaced by a space. -/
theorem load_candidate_wellformed_total (hl : Bool) (now : Nat) (f : Folder)
    (hgood : goodFolder f = true) :
    (∃ c, load_candidate_from_folder hl now f = .ok c) ∧
    (noFullName f.basic_info = true →
      ∀ c, load_candidate_from_folder hl now f = .ok c →
        c.full_name = pyReplaceChar '-' ' ' f.name) := by
  unfold goodFolder at hgood
  rw [Bool.and_eq_true] at hgood
  obtain ⟨hb, hp⟩ := hgood
  obtain ⟨kvsb, hjb, hdgood⟩ := goodDoc_elim goodData f.basic_info (by decide) hb
  obtain ⟨kvsp, hjp, hpgood⟩ := goodDoc_elim goodPersonal f.personal_info (by decide) hp
  obtain ⟨kvsd, hdeq, hFull, hTitle, hExp, hEdu⟩ :=
    goodData_elim ((Json.lookup kvsb "data").getD (.obj [])) hdgood
  obtain ⟨kvsq, hpeq, hEmail, hLinked, hUrls⟩ :=
    goodPersonal_elim ((Json.lookup kvsp "data").getD (.obj [])) hpgood
  obtain ⟨fn, hfn, hfnFallback⟩ :=
    lookup_getD_str kvsd "fullName" (pyReplaceChar '-' ' ' f.name) hFull
  obtain ⟨t, ht⟩ := getStrOpt_ok_of_good kvsd "title" hTitle
  obtain ⟨pe, hpe⟩ := getStrOpt_ok_of_good kvsq "primaryEmail" hEmail
  obtain ⟨lu, hlu⟩ := getStrOpt_ok_of_good kvsq "linkedinUrl" hLinked
  obtain ⟨du, hdu⟩ := lookup_getD_strList kvsq "displayUrls" hUrls
  obtain ⟨xr, hxr⟩ := lookup_getD_expRecs kvsd "experience" hExp
  obtain ⟨er, her⟩ := lookup_getD_eduRecs kvsd "education" hEdu
  constructor
  · unfold load_candidate_from_folder
    simp only [except_bind_ok, except_pure_ok]
    refine ⟨_, (Json.lookup kvsb "data").getD (.obj []), by rw [hjb, json_get_obj],
      (Json.lookup kvsp "data").getD (.obj []), by rw [hjp, json_get_obj],
      (Json.lookup kvsd "fullName").getD (.str (pyReplaceChar '-' ' ' f.name)),
        by rw [hdeq, json_get_obj],
      fn, hfn,
      t, by rw [hdeq]; exact ht,
      pe, by rw [hpeq]; exact hpe,
      lu, by rw [hpeq]; exact hlu,
      (Json.lookup kvsq "displayUrls").getD (.arr []), by rw [hpeq, json_get_obj],
      du, hdu,
      (Json.lookup kvsd "experience").getD (.arr []), by rw [hdeq, json_get_obj],
      (Json.lookup kvsd "education").getD (.arr []), by rw [hdeq, json_get_obj],
      xr, hxr,
      er, her,
      rfl⟩
  · intro hnofn c hok
    unfold load_candidate_from_folder at hok
    simp only [except_bind_ok, except_pure_ok] at hok
    obtain ⟨data, hdata, pd, hpd, fnj, hfnj, fn2, hfn2, t2, ht2, pe2, hpe2, lu2, hlu2,
      duj, hduj, du2, hdu2, ex2, hex2, ed2, hed2, xr2, hxr2, er2, her2, hc⟩ := hok
    subst hc
    show fn2 = pyReplaceChar '-' ' ' f.name
    rw [hjb, json_get_obj, Except.ok.injEq] at hdata
    subst hdata
    unfold noFullName at hnofn
    rw [hjb] at hnofn
    have hnofn2 : (match Json.lookup kvsb "data" with
      | none => true
      | some (Json.obj kvs2) => (Json.lookup kvs2 "fullName").isNone
      | some _ => false) = true := hnofn
    cases hlk : Json.lookup kvsb "data" with
    | none =>
      rw [hlk, Option.getD_none, json_get_obj, Except.ok.injEq] at hfnj
      simp only [Json.lookup, Option.getD_none] at hfnj
      rw [← hfnj] at hfn2
      exact (Except.ok.inj hfn2).symm
    | some v =>
      rw [hlk] at hnofn2
      cases v <;> try exact Bool.noConfusion hnofn2
      rename_i kvs2
      have hn2 : (Json.lookup kvs2 "fullName").isNone = true := hnofn2
      rw [Option.isNone_iff_eq_none] at hn2
      rw [hlk, Option.getD_some, json_get_obj, Except.ok.injEq, hn2, Option.getD_none] at hfnj
      rw [← hfnj] at hfn2
      exact (Except.ok.inj hfn2).symm

theorem load_candidate_wellformed_total_witness :
    goodFolder { name := "John-Doe" } = true ∧
    (∃ c, load_candidate_from_folder false 0 { name := "John-Doe" } = .ok c) ∧
    (∀ c, load_candidate_from_folder false 0 { name := "John-Doe" } = .ok c →
      c.full_name = "John Doe") := by
  have h := load_candidate_wellformed_total false 0 { name := "John-Doe" } (by decide)
  refine ⟨by decide, h.1, ?_⟩
  intro c hc
  rw [h.2 (by decide) c hc]
  decide


theorem findExisting_eq_none (store : List Candidate) (n : String) :
    findExisting store n = none ↔ n ∉ folderNames store := by
  unfold findExisting folderNames
  rw [List.find?_eq_none]
  constructor
  · intro h hmem
    obtain ⟨c, hc, hcn⟩ := List.mem_map.mp hmem
    exact h c hc (by simp [hcn])
  · intro h c hc hbeq
    exact h (List.mem_map.mpr ⟨c, hc, by rwa [beq_iff_eq] at hbeq⟩)

theorem findExisting_isSome (store : List Candidate) (n : String) :
    (findExisting store n).isSome = true ↔ n ∈ folderNames store := by
  unfold findExisting folderNames
  rw [List.find?_isSome]
  constructor
  · rintro ⟨c, hc, hbeq⟩
    exact List.mem_map.mpr ⟨c, hc, by rwa [beq_iff_eq] at hbeq⟩
  · intro hmem
    obtain ⟨c, hc, hcn⟩ := List.mem_map.mp hmem
    exact ⟨c, hc, by simp [hcn]⟩

theorem scanFolders_all_new (hl : Bool) (now : Nat) (es : List DirEntry) :
    ∀ (store : List Candidate) (l k : Nat),
    (∀ f ∈ dirFolders es, ∃ c, load_candidate_from_folder hl now f = .ok c) →
    (((dirFolders es).map Folder.name).Nodup) →
    (∀ f ∈ dirFolders es, f.name ∉ folderNames store) →
    ∃ store2, scanFolders hl now es store l k = .ok (store2, l + (dirFolders es).length, k) ∧
      folderNames store2 = folderNames store ++ (dirFolders es).map Folder.name := by
  induction es with
  | nil =>
    intro store l k _ _ _
    exact ⟨store, rfl, by simp [dirFolders]⟩
  | cons e rest ih =>
    intro store l k h1 h2 h3
    cases e with
    | file n => exact ih store l k h1 h2 h3
    | dir f =>
      have hd : dirFolders (DirEntry.dir f :: rest) = f :: dirFolders rest := rfl
      rw [hd] at h1 h2 h3
      rw [List.map_cons] at h2
      have hmemf : f ∈ f :: dirFolders rest := List.mem_cons_self f _
      have hnone : findExisting store f.name = none :=
        (findExisting_eq_none _ _).mpr (h3 f hmemf)
      obtain ⟨c, hc⟩ := h1 f hmemf
      have hcn : c.folder_name = f.name := (load_ok_shape hl now f c hc).1
      have hstepnames : folderNames (store ++ [c]) = folderNames store ++ [f.name] := by
        simp [folderNames, hcn]
      have hstep : scanFolders hl now (DirEntry.dir f :: rest) store l k =
          scanFolders hl now rest (store ++ [c]) (l + 1) k := by
        show (if (findExisting store f.name).isSome then
            scanFolders hl now rest store l (k + 1)
          else
            match load_candidate_from_folder hl now f with
            | .error err => .error err
            | .ok c => scanFolders hl now rest (store ++ [c]) (l + 1) k) = _
        rw [hnone, hc]
        rfl
      have h3r : ∀ g ∈ dirFolders rest, g.name ∉ folderNames (store ++ [c]) := by
        intro g hg
        rw [hstepnames]
        simp only [List.mem_append, List.mem_singleton]
        rintro (hmem | heq)
        · exact h3 g (List.mem_cons_of_mem f hg) hmem
        · rw [List.nodup_cons] at h2
          exact h2.1 (heq ▸ List.mem_map.mpr ⟨g, hg, rfl⟩)
      obtain ⟨store2, hrun, hnames⟩ := ih (store ++ [c]) (l + 1) k
        (fun g hg => h1 g (List.mem_cons_of_mem f hg)) (List.nodup_cons.mp h2).2 h3r
      refine ⟨store2, ?_, ?_⟩
      · rw [hstep, hrun, hd, List.length_cons]
        have : l + 1 + (dirFolders rest).length = l + ((dirFolders rest).length + 1) := by omega
        rw [this]
      · rw [hnames, hstepnames, hd, List.map_cons, List.append_assoc, List.singleton_append]

theorem scanFolders_all_existing (hl : Bool) (now : Nat) (es : List DirEntry) :
    ∀ (store : List Candidate) (l k : Nat),
    (∀ f ∈ dirFolders es, f.name ∈ folderNames store) →
    scanFolders hl now es store l k = .ok (store, l, k + (dirFolders es).length) := by
  induction es with
  | nil => intro store l k _; rfl
  | cons e rest ih =>
    intro store l k h
    cases e with
    | file n => exact ih store l k h
    | dir f =>
      have hd : dirFolders (DirEntry.dir f :: rest) = f :: dirFolders rest := rfl
      rw [hd] at h
      have hsome : (findExisting store f.name).isSome = true :=
        (findExisting_isSome _ _).mpr (h f (List.mem_cons_self f _))
      have hstep : scanFolders hl now (DirEntry.dir f :: rest) store l k =
          scanFolders hl now rest store l (k + 1) := by
        show (if (findExisting store f.name).isSome then
            scanFolders hl now rest store l (k + 1)
          else
            match load_candidate_from_folder hl now f with
            | .error err => .error err
            | .ok c => scanFolders hl now rest (store ++ [c]) (l + 1) k) = _
        rw [hsome]
        rfl
      rw [hstep, ih store l (k + 1) (fun g hg => h g (List.mem_cons_of_mem f hg)),
        hd, List.length_cons]
      have : k + 1 + (dirFolders rest).length = k + ((dirFolders rest).length + 1) := by omega
      rw [this]

/-- C3: disk-scan ingest is idempotent. For a directory of loadable
applicant folders with distinct names, none of which is already in the
store, the first run inserts each folder exactly once
(`loaded_count = N`, `skipped_count = 0` where `N` is the number of
subdirectories); the second run against the unchanged directory inserts
nothing (`loaded_count = 0`, `skipped_count = N`) — every folder whose
`folder_name` already exists in the store is skipped — and leaves the
store (hence its row count) unchanged. -/
theorem ingest_idempotent (hl hl2 : Bool) (now now2 : Nat) (store : List Candidate)
    (entries : List DirEntry)
    (h1 : ∀ f ∈ dirFolders entries, ∃ c, load_candidate_from_folder hl now f = .ok c)
    (h2 : ((dirFolders entries).map Folder.name).Nodup)
    (h3 : ∀ f ∈ dirFolders entries, f.name ∉ folderNames store) :
    ∃ store2,
      load_candidates_from_disk hl now true store entries
        = .ok (store2, some ((dirFolders entries).length, 0)) ∧
      load_candidates_from_disk hl2 now2 true store2 entries
        = .ok (store2, some (0, (dirFolders entries).length)) ∧
      store2.length = store.length + (dirFolders entries).length := by
  have hperm : List.Perm (dirFolders (sortEntries entries)) (dirFolders entries) :=
    List.Perm.filterMap _ (List.perm_insertionSort _ entries)
  have hlen : (dirFolders (sortEntries entries)).length = (dirFolders entries).length :=
    hperm.length_eq
  have h1s : ∀ f ∈ dirFolders (sortEntries entries),
      ∃ c, load_candidate_from_folder hl now f = .ok c :=
    fun f hf => h1 f (hperm.mem_iff.mp hf)
  have h2s : ((dirFolders (sortEntries entries)).map Folder.name).Nodup :=
    ((hperm.map Folder.name).nodup_iff).mpr h2
  have h3s : ∀ f ∈ dirFolders (sortEntries entries), f.name ∉ folderNames store :=
    fun f hf => h3 f (hperm.mem_iff.mp hf)
  obtain ⟨store2, hrun, hnames⟩ :=
    scanFolders_all_new hl now (sortEntries entries) store 0 0 h1s h2s h3s
  refine ⟨store2, ?_, ?_, ?_⟩
  · show (match scanFolders hl now (sortEntries entries) store 0 0 with
      | Except.error err => Except.error err
      | Except.ok (store', l, k) => Except.ok (store', some (l, k))) = _
    rw [hrun, Nat.zero_add, hlen]
  · have hall : ∀ f ∈ dirFolders (sortEntries entries), f.name ∈ folderNames store2 := by
      intro f hf
      rw [hnames]
      exact List.mem_append.mpr (Or.inr (List.mem_map.mpr ⟨f, hf, rfl⟩))
    show (match scanFolders hl2 now2 (sortEntries entries) store2 0 0 with
      | Except.error err => Except.error err
      | Except.ok (store', l, k) => Except.ok (store', some (l, k))) = _
    rw [scanFolders_all_existing hl2 now2 (sortEntries entries) store2 0 0 hall,
      Nat.zero_add, hlen]
  · have : (folderNames store2).length = (folderNames store).length +
        ((dirFolders (sortEntries entries)).map Folder.name).length := by
      rw [hnames, List.length_append]
    simp only [folderNames, List.length_map] at this
    rw [this, hlen]

theorem ingest_idempotent_witness :
    ∃ store2,
      load_candidates_from_disk false 0 true []
        [DirEntry.dir { name := "B" }, DirEntry.file "notes.txt", DirEntry.dir { name := "A" }]
        = .ok (store2, some (2, 0)) ∧
      load_candidates_from_disk false 0 true store2
        [DirEntry.dir { name := "B" }, DirEntry.file "notes.txt", DirEntry.dir { name := "A" }]
        = .ok (store2, some (0, 2)) ∧
      store2.length = 0 + 2 := by
  refine ingest_idempotent false false 0 0 []
    [DirEntry.dir { name := "B" }, DirEntry.file "notes.txt", DirEntry.dir { name := "A" }]
    ?_ (by decide) ?_
  · intro f hf
    have hcase : f = { name := "B" } ∨ f = { name := "A" } := by
      simpa [dirFolders, List.filterMap] using hf
    rcases hcase with rfl | rfl
    · exact ⟨_, rfl⟩
    · exact ⟨_, rfl⟩
  · intro f _
    simp [folderNames]

end RecruitingVisualizer
